import Mathlib

/- Verification development for the OpenElectricity live-map pipeline
   (mqtt_publisher_loop.py, mqtt_subscriber.py, map_app_streamlit.py).

   Modelling conventions used throughout:
   * numeric CSV/JSON values (power, CO2 mass, coordinates) are rationals;
   * event times are naturals: after `_iso_utc` every timestamp string has
     the fixed second-precision form (YYYY-MM-DDTHH:MM:SSZ), so the string,
     its parsed pandas instant (the `_ts` column) and the natural number of
     seconds since the epoch determine each other, and string/instant
     ordering coincides with the natural-number ordering;
   * a missing value (absent column, NaN after numeric coercion, NaT after
     timestamp parsing, Python None) is `Option.none`. -/

/- ------------------------------------------------------------------ -/
/- Publisher: shallow embedding of src/mqtt_publisher_loop.py          -/
/- ------------------------------------------------------------------ -/

/- One row of the dataframe returned by `_load_csv` (lines 38-57).
   `_load_csv` drops rows whose timestamp does not parse and rows whose
   lat/lon are not numeric, so a row reaching the publishing loop always
   has a parsed event time `ts` (the `_ts` column, which also determines
   the normalised `timestamp` string) and numeric coordinates; the other
   columns may still hold NaN. -/

structure PubRow where
  facility_code : String
  facility_name : Option String
  power_mw : Option ℚ
  co2_kg : Option ℚ
  region : Option String
  fuel_tech : Option String
  lat : ℚ
  lon : ℚ
  ts : Nat
  deriving DecidableEq

/- The JSON wire message published in run() (lines 101-111). -/
structure WireMsg where
  facility_id : String
  facility_name : String
  latitude : ℚ
  longitude : ℚ
  power_mw : ℚ
  co2_kg : ℚ
  state : String
  fuel_tech : String
  timestamp : Nat
  deriving DecidableEq

/- `last_vals : Dict[str, Dict[str, Any]]` (line 77): per-facility pair
   (power_mw, co2_kg) last actually transmitted. -/
def LastVals : Type := String → Option (ℚ × ℚ)

def lastValsEmpty : LastVals := fun _ => none

def lastValsSet (m : LastVals) (k : String) (v : ℚ × ℚ) : LastVals :=
  fun g => if g = k then some v else m g

/- The message dict built in lines 101-111: `str(...) if pd.notna(...)`
   fallbacks for the string columns, and power/co2 already coerced to 0.0
   when NaN (lines 93-94). -/
def mkMsg (r : PubRow) : WireMsg :=
  { facility_id := r.facility_code
    facility_name := r.facility_name.getD "Unknown"
    latitude := r.lat
    longitude := r.lon
    power_mw := r.power_mw.getD 0
    co2_kg := r.co2_kg.getD 0
    state := r.region.getD ""
    fuel_tech := r.fuel_tech.getD ""
    timestamp := r.ts }

/- Lines 91-120: one iteration of `for _, r in df.iterrows()`.  The skip
   test `prev.get("power_mw") == cur_p and prev.get("co2_kg") == cur_c`
   holds exactly when the memory stores the coerced pair (when the
   facility is unseen, `prev.get` yields None, never equal to a float). -/
def stepRow (last_vals : LastVals) (r : PubRow) : LastVals × Option WireMsg :=
  if last_vals r.facility_code = some (r.power_mw.getD 0, r.co2_kg.getD 0) then
    (last_vals, none)
  else
    (lastValsSet last_vals r.facility_code (r.power_mw.getD 0, r.co2_kg.getD 0),
     some (mkMsg r))

/- A whole round over the (already sorted) rows, returning the final
   last-sent memory and the transmitted messages in order. -/
def processRound (last_vals : LastVals) : List PubRow → LastVals × List WireMsg
  | [] => (last_vals, [])
  | r :: rest =>
    let s := stepRow last_vals r
    let t := processRound s.1 rest
    (t.1, s.2.toList ++ t.2)

/- `df.sort_values(["_ts", "facility_code"], kind="stable")` (line 56):
   a stable sort on the key (event time, facility code), modelled by a
   stable insertion sort on the strict lexicographic comparison. -/
def rowLtB (a b : PubRow) : Bool :=
  decide (a.ts < b.ts) || (decide (a.ts = b.ts) && decide (a.facility_code < b.facility_code))

def insLex (x : PubRow) : List PubRow → List PubRow
  | [] => [x]
  | y :: ys => if rowLtB y x then y :: insLex x ys else x :: y :: ys

def sortLex : List PubRow → List PubRow
  | [] => []
  | x :: xs => insLex x (sortLex xs)

/- Outcome of one `_load_csv` call inside the loop of run():
   `ok rows` when the CSV loads (rows given in file order),
   `err` when it raises (e.g. required columns missing, line 44-46). -/
inductive LoadOutcome where
  | ok (rows : List PubRow)
  | err
  deriving DecidableEq

/- What one round of the while-loop does: on a load error the exception
   is caught, logged, and the round skipped via `continue` (lines 83-88);
   otherwise the sorted rows are processed and the changed ones sent. -/
inductive RoundOutcome where
  | sent (msgs : List WireMsg)
  | skipped
  deriving DecidableEq

def runRounds (last_vals : LastVals) : List LoadOutcome → List RoundOutcome
  | [] => []
  | LoadOutcome.err :: rest => RoundOutcome.skipped :: runRounds last_vals rest
  | LoadOutcome.ok rows :: rest =>
    let p := processRound last_vals (sortLex rows)
    RoundOutcome.sent p.2 :: runRounds p.1 rest

/- run() lines 65-123: the only fatal startup check is `csv_path.exists()`
   (exit code 1, before the loop); the per-round `_load_csv` call sits
   inside the loop in a try/except that logs and continues.  The infinite
   loop is modelled on an arbitrary finite prefix of load outcomes. -/
def runPublisher (csv_exists : Bool) (loads : List LoadOutcome) :
    Except Nat (List RoundOutcome) :=
  if csv_exists then Except.ok (runRounds lastValsEmpty loads) else Except.error 1

def c3row : PubRow :=
  { facility_code := "F1"
    facility_name := some "Plant One"
    power_mw := some 10
    co2_kg := some 500
    region := some "NSW1"
    fuel_tech := some "coal"
    lat := -33
    lon := 151
    ts := 100 }

def c10row : PubRow :=
  { facility_code := "F2"
    facility_name := none
    power_mw := none
    co2_kg := none
    region := none
    fuel_tech := none
    lat := -35
    lon := 149
    ts := 200 }

/- ------------------------------------------------------------------ -/
/- Ordering of a publisher round (claim C4)                            -/
/- ------------------------------------------------------------------ -/

/- Non-strict version of the round's sort key order. -/
def rowLe (a b : PubRow) : Prop :=
  a.ts < b.ts ∨ (a.ts = b.ts ∧ a.facility_code ≤ b.facility_code)

/- The ordering the claim asserts on transmitted messages. -/
def msgLe (a b : WireMsg) : Prop :=
  a.timestamp < b.timestamp ∨ (a.timestamp = b.timestamp ∧ a.facility_id ≤ b.facility_id)

def c5row : PubRow :=
  { facility_code := "F9"
    facility_name := some "Plant Nine"
    power_mw := some 3
    co2_kg := some 70
    region := some "QLD1"
    fuel_tech := some "gas"
    lat := -20
    lon := 147
    ts := 50 }

/- ------------------------------------------------------------------ -/
/- Consumer: shallow embedding of src/map_app_streamlit.py (file mode) -/
/- ------------------------------------------------------------------ -/

/- One harmonized file-mode row, as produced by `_harmonize` (lines
   87-130): coordinates are numeric and admissible (the final filter),
   the other columns may be missing.  `ts` models both the `timestamp`
   column and its parse `_ts` (they determine each other, see the header
   comment); `none` is NaT. -/
structure HRow where
  facility_id : Option String
  name : Option String
  state : Option String
  fuel_tech : Option String
  latitude : ℚ
  longitude : ℚ
  power_mw : Option ℚ
  emissions_tonnes : Option ℚ
  co2_kg : Option ℚ
  ts : Option Nat
  deriving DecidableEq

/- Pandas ordering on the `_ts` column: NaT never compares less, and
   `sort_values` puts NaT last (na_position default). -/
def tsLtB : Option Nat → Option Nat → Bool
  | some a, some b => decide (a < b)
  | some _, none => true
  | none, _ => false

/- `df_all["_ts"] <= st.session_state.show_upto_ts` (line 379): a NaT
   entry compares False and falls out of the window. -/
def winLeB : Option Nat → Nat → Bool
  | some t, c => decide (t ≤ c)
  | none, _ => false

def df_window (df_all : List HRow) (cursor : Nat) : List HRow :=
  df_all.filter fun r => winLeB r.ts cursor

/- Being non-decreasingly ordered on the `_ts` column (NaT last). -/
abbrev SortedTs (l : List HRow) : Prop :=
  List.Pairwise (fun a b => tsLtB b.ts a.ts = false) l

/- `df_window.sort_values("_ts")` (line 381) uses the pandas default
   kind (quicksort), an UNSTABLE comparison sort — unlike the
   publisher's sort at mqtt_publisher_loop.py line 56, no kind="stable"
   is passed.  Its contract guarantees only that the output is some
   permutation of the frame that is non-decreasing on `_ts`; the
   relative order of rows with equal `_ts` is unspecified.  The sort is
   therefore modelled relationally: `sortValuesTs w ws` holds exactly
   when `ws` is an output the sort is allowed to produce for input `w`. -/
def sortValuesTs (w ws : List HRow) : Prop :=
  w.Perm ws ∧ SortedTs ws

/- `.groupby("facility_id", as_index=False).tail(1)` (line 381): keep,
   in frame order, the last row of each facility group; rows whose
   facility_id is missing belong to no group (groupby dropna) and are
   dropped. -/
def tailOneByFid : List HRow → List HRow
  | [] => []
  | r :: rest =>
    match r.facility_id with
    | none => tailOneByFid rest
    | some f =>
      if rest.any (fun s => decide (s.facility_id = some f)) then tailOneByFid rest
      else r :: tailOneByFid rest

/- Lines 379-383, parameterised by the sort output `ws` the unstable
   `sort_values("_ts")` produced for the window (any `ws` with
   `sortValuesTs (df_window df_all cursor) ws` is possible): when the
   window is non-empty, df_latest is `tail(1)` per facility over that
   sorted frame. -/
def df_latest (df_all : List HRow) (cursor : Nat) (ws : List HRow) : List HRow :=
  if (df_window df_all cursor).isEmpty then df_window df_all cursor
  else tailOneByFid ws

/- ------------------------------------------------------------------ -/
/- Playback cursor (lines 366-377) and app state                       -/
/- ------------------------------------------------------------------ -/

/- PLAYBACK_DELTA = pd.Timedelta(minutes=5) (line 44), in seconds. -/
def PLAYBACK_DELTA : Nat := 300

/- Lines 370-377 for a dataset whose `_ts` column has a proper (non-NaT)
   minimum and maximum: a None/NaT cursor is first initialised to the
   minimum, then one playing tick advances it by the fixed step, capped
   at the maximum; a tick at the maximum (or a paused tick) is a no-op. -/
def show_upto_step (min_ts max_ts : Nat) (play : Bool) (cursor : Option Nat) : Nat :=
  let c := cursor.getD min_ts
  if play ∧ c < max_ts then min max_ts (c + PLAYBACK_DELTA) else c

def cursor_trace (min_ts max_ts : Nat) : List Bool → Option Nat → List Nat
  | [], _ => []
  | p :: ps, c =>
    let n := show_upto_step min_ts max_ts p c
    n :: cursor_trace min_ts max_ts ps (some n)

/- The file on disk: its modification time and its (harmonized) content. -/
structure FileSt where
  mtime : Int
  rows : List HRow
  deriving DecidableEq

/- The session state the file-mode path reads and writes: data_mtime,
   df_all (lines 184-187) and show_upto_ts (lines 190-191). -/
structure AppSt where
  data_mtime : Int
  df_all : List HRow
  show_upto_ts : Option Nat
  deriving DecidableEq

/- Lines 218-220: the sidebar button sets data_mtime = -1.0 and reruns. -/
def btn_manual_refresh (s : AppSt) : AppSt := { s with data_mtime := -1 }

def minTs (l : List HRow) : Option Nat := (l.filterMap (fun r => r.ts)).min?

def maxTs (l : List HRow) : Option Nat := (l.filterMap (fun r => r.ts)).max?

/- One file-mode run of the script body: the reload block (lines 334-344:
   reload iff not paused and the file mtime differs from the stored
   token), the empty-data early stop (lines 350-361), then the
   progressive-window block (lines 366-377).  When every `_ts` is NaT the
   min/max are NaT: a None/NaT cursor stays NaT and a valid cursor is
   left unchanged (NaT comparisons are False). -/
def runOnce (file : FileSt) (pause play : Bool) (s : AppSt) : AppSt :=
  let s1 :=
    if pause = false ∧ file.mtime ≠ s.data_mtime then
      { s with df_all := file.rows, data_mtime := file.mtime }
    else s
  if s1.df_all.isEmpty then s1
  else
    match minTs s1.df_all, maxTs s1.df_all with
    | some m, some M =>
      { s1 with show_upto_ts := some (show_upto_step m M play s1.show_upto_ts) }
    | _, _ => s1

def c7rowA : HRow :=
  { facility_id := some "F1"
    name := some "Plant One"
    state := some "NSW"
    fuel_tech := some "coal"
    latitude := -33
    longitude := 151
    power_mw := some 5
    emissions_tonnes := some 1
    co2_kg := some 1000
    ts := some 0 }

def c7rowB : HRow :=
  { c7rowA with power_mw := some 7, ts := some 1000 }

def c7rows : List HRow := [c7rowA, c7rowB]

def c7file : FileSt := { mtime := 7, rows := c7rows }

def c7state : AppSt := { data_mtime := 7, df_all := c7rows, show_upto_ts := some 600 }

/- ------------------------------------------------------------------ -/
/- Record harmonizer (map_app_streamlit.py lines 72-130) and the       -/
/- subscriber (mqtt_subscriber.py lines 32-59)                         -/
/- ------------------------------------------------------------------ -/

/- A raw record: the loosely-typed field bag one row of the JSONL/CSV
   frame presents to `_harmonize`.  Column-level presence is modelled as
   field-level presence (exact for the homogeneous frames the pipeline
   produces); a value that fails numeric coercion (`pd.to_numeric(...,
   errors="coerce")`) or timestamp parsing is `none`, like an absent
   one. -/
structure RawRow where
  facility_id : Option String := none
  name : Option String := none
  facility_name : Option String := none
  state : Option String := none
  fuel_tech : Option String := none
  latitude : Option ℚ := none
  longitude : Option ℚ := none
  lat : Option ℚ := none
  lon : Option ℚ := none
  power_mw : Option ℚ := none
  power : Option ℚ := none
  emissions_tonnes : Option ℚ := none
  co2_kg : Option ℚ := none
  emissions : Option ℚ := none
  timestamp : Option Nat := none
  time : Option Nat := none
  deriving DecidableEq

/- `_valid_lat_lon` (lines 72-80), numeric case; the non-numeric and NaN
   cases are the `none` branches at the call site in `_harmonize_row`. -/
def _valid_lat_lon (la lo : ℚ) : Bool :=
  decide (-90 ≤ la) && decide (la ≤ 90) && decide (-180 ≤ lo) && decide (lo ≤ 180) &&
  !(decide (|la| < 1 / 1000000000) && decide (|lo| < 1 / 1000000000))

/- `_harmonize` (lines 87-130) restricted to a single row: coordinate,
   name, power and timestamp aliasing; emissions_tonnes kept when already
   present, else derived from co2_kg / 1000, else from emissions / 1000,
   else missing; rows failing the coordinate validity filter are
   dropped.  The co2_kg column itself passes through untouched. -/
def _harmonize_row (raw : RawRow) : Option HRow :=
  match raw.latitude <|> raw.lat, raw.longitude <|> raw.lon with
  | some la, some lo =>
    if _valid_lat_lon la lo then
      some { facility_id := raw.facility_id
             name := raw.name <|> raw.facility_name
             state := raw.state
             fuel_tech := raw.fuel_tech
             latitude := la
             longitude := lo
             power_mw := raw.power_mw <|> raw.power
             emissions_tonnes :=
               match raw.emissions_tonnes, raw.co2_kg, raw.emissions with
               | some e, _, _ => some e
               | none, some mass, _ => some (mass / 1000)
               | none, none, some mass => some (mass / 1000)
               | none, none, none => none
             co2_kg := raw.co2_kg
             ts := raw.timestamp <|> raw.time }
    else none
  | _, _ => none

/- Subscriber on_message (mqtt_subscriber.py lines 32-59) after the JSON
   parse and dict check succeed: mirror lat/lon into latitude/longitude
   when absent, then append the object unchanged as one JSONL line. -/
def sub_on_message (obj : RawRow) : RawRow :=
  { obj with
      latitude := obj.latitude <|> obj.lat
      longitude := obj.longitude <|> obj.lon }

/- Reading back one JSONL line that the subscriber wrote for a publisher
   wire message yields exactly the wire fields (JSON serialisation of
   strings and finite doubles round-trips losslessly). -/
def msgToRaw (m : WireMsg) : RawRow :=
  { facility_id := some m.facility_id
    facility_name := some m.facility_name
    state := some m.state
    fuel_tech := some m.fuel_tech
    latitude := some m.latitude
    longitude := some m.longitude
    power_mw := some m.power_mw
    co2_kg := some m.co2_kg
    timestamp := some m.timestamp }

def c8row : PubRow :=
  { facility_code := "F4"
    facility_name := some "Plant Four"
    power_mw := some 12
    co2_kg := some 800
    region := some "VIC1"
    fuel_tech := some "hydro"
    lat := -37
    lon := 144
    ts := 900 }

def c9raw : RawRow :=
  { facility_id := some "F5"
    facility_name := some "Plant Five"
    latitude := some 10
    longitude := some 50
    power_mw := some 4
    emissions_tonnes := some 99
    co2_kg := some 1000
    timestamp := some 400 }

def c9rawB : RawRow :=
  { facility_id := some "F6"
    latitude := some 20
    longitude := some 60
    co2_kg := some 2000
    timestamp := some 500 }

/- ------------------------------------------------------------------ -/
/- Windowed latest per facility (claim C2)                             -/
/- ------------------------------------------------------------------ -/

def c2rowA : HRow :=
  { facility_id := some "F1"
    name := some "Plant One A"
    state := some "NSW"
    fuel_tech := some "coal"
    latitude := -33
    longitude := 151
    power_mw := some 5
    emissions_tonnes := some 1
    co2_kg := some 1000
    ts := some 10 }

def c2rowB : HRow :=
  { c2rowA with name := some "Plant One B", power_mw := some 7 }

def c2rowC : HRow :=
  { facility_id := some "F2"
    name := some "Plant Two"
    state := some "QLD"
    fuel_tech := some "gas"
    latitude := -20
    longitude := 147
    power_mw := some 3
    emissions_tonnes := some 2
    co2_kg := some 2000
    ts := some 12 }

def c2rows : List HRow := [c2rowA, c2rowB, c2rowC]

/- ------------------------------------------------------------------ -/
/- Live (cloud) mode: _mqtt_on_message (map_app_streamlit.py 277-301)  -/
/- ------------------------------------------------------------------ -/

/- Python `or` on an optional string: an absent value and the empty
   string are both falsy. -/
def pyOrS : Option String → Option String → Option String
  | some s, b => if s = "" then b else some s
  | none, b => b

/- Python `or` on an optional JSON number: absent and 0 are falsy. -/
def pyOrQ : Option ℚ → Option ℚ → Option ℚ
  | some q, b => if q = 0 then b else some q
  | none, b => b

/- The parsed JSON payload as _mqtt_on_message reads it: every key it
   may look up, absent keys being `none`.  Timestamps are modelled by
   their parsed instant; a present timestamp stands for a nonempty
   string (so `or` keeps it). -/
structure LiveMsg where
  facility_code : Option String := none
  facility_id : Option String := none
  code : Option String := none
  facility_name : Option String := none
  name : Option String := none
  region : Option String := none
  network_region : Option String := none
  state : Option String := none
  region_state : Option String := none
  fuel_tech : Option String := none
  fueltech_id : Option String := none
  latitude : Option ℚ := none
  lat : Option ℚ := none
  longitude : Option ℚ := none
  lon : Option ℚ := none
  lng : Option ℚ := none
  power_mw : Option ℚ := none
  power : Option ℚ := none
  co2_kg : Option ℚ := none
  emissions : Option ℚ := none
  co2 : Option ℚ := none
  timestamp : Option Nat := none
  ts : Option Nat := none
  deriving DecidableEq

/- The normalised record built in lines 286-299. -/
structure LiveRec where
  facility_code : String
  facility_id : String
  facility_name : Option String
  name : Option String
  region : Option String
  state : Option String
  fuel_tech : String
  latitude : Option ℚ
  longitude : Option ℚ
  power_mw : Option ℚ
  co2_kg : Option ℚ
  timestamp : Option Nat
  deriving DecidableEq

def mkLiveRec (j : LiveMsg) (fc : String) : LiveRec :=
  { facility_code := fc
    facility_id := (pyOrS j.facility_id (some fc)).getD fc
    facility_name := pyOrS j.facility_name j.name
    name := pyOrS j.facility_name j.name
    region :=
      if ((pyOrS j.region j.network_region).getD "").trim.toUpper = "" then none
      else some ((pyOrS j.region j.network_region).getD "").trim.toUpper
    state := pyOrS j.state j.region_state
    fuel_tech := (pyOrS (pyOrS j.fuel_tech j.fueltech_id) (some "unknown")).getD "unknown"
    latitude := pyOrQ j.latitude j.lat
    longitude := pyOrQ (pyOrQ j.longitude j.lon) j.lng
    power_mw := if j.power_mw.isSome then j.power_mw else j.power
    co2_kg := if j.co2_kg.isSome then j.co2_kg else pyOrQ j.emissions j.co2
    timestamp := j.timestamp <|> j.ts }

/- `fc = j.get("facility_code") or j.get("facility_id") or j.get("code");
   if not fc: return` (lines 283-285). -/
def mqttKey (j : LiveMsg) : Option String :=
  match pyOrS (pyOrS j.facility_code j.facility_id) j.code with
  | none => none
  | some s => if s = "" then none else some s

/- `st.session_state.latest_by_fac`: a Python dict keyed by the
   normalised facility code; assignment replaces an existing key in
   place, else appends. -/
abbrev LatestByFac : Type := List (String × LiveRec)

def dictInsert (st : LatestByFac) (k : String) (v : LiveRec) : LatestByFac :=
  if st.any (fun p => decide (p.1 = k)) then
    st.map (fun p => if p.1 = k then (k, v) else p)
  else st ++ [(k, v)]

/- Lines 277-301: parse, normalise, and unconditionally assign
   `latest_by_fac[fc] = rec` — no event-time comparison of any kind. -/
def _mqtt_on_message (st : LatestByFac) (j : LiveMsg) : LatestByFac :=
  match mqttKey j with
  | none => st
  | some fc => dictInsert st fc (mkLiveRec j fc)

def mqttIngest (st : LatestByFac) : List LiveMsg → LatestByFac
  | [] => st
  | j :: rest => mqttIngest (_mqtt_on_message st j) rest

/- The records the handler would build for facility f, in arrival order. -/
def liveRecsFor (f : String) (msgs : List LiveMsg) : List LiveRec :=
  msgs.filterMap fun j =>
    match mqttKey j with
    | some fc => if fc = f then some (mkLiveRec j fc) else none
    | none => none

def storeKeys (st : LatestByFac) : List String := st.map Prod.fst

/- Dict access on the association-list model of latest_by_fac. -/
def storeLookup (st : LatestByFac) (k : String) : Option LiveRec :=
  match st with
  | [] => none
  | p :: rest => if p.1 = k then some p.2 else storeLookup rest k

def c1msgA : LiveMsg := { facility_code := some "A", timestamp := some 10 }

def c1msgB : LiveMsg := { facility_code := some "A", timestamp := some 5 }

/- ------------------------------------------------------------------ -/
/- Theorems                                                            -/
/- ------------------------------------------------------------------ -/

/- ------------------------------------------------------------------ -/
/- Theorems for claims C3 and C10                                      -/
/- ------------------------------------------------------------------ -/

/-- Claim C3: for every publisher round and every row taken in the round's
sorted order, a wire message is transmitted iff the row's coerced
(power_mw, co2_kg) pair differs from the producer's last-sent memory for
that facility (a never-sent facility always transmits, since the memory
holds nothing for it); an unchanged row is skipped with no transmission
and no memory update; a transmitted row sends the canonical message and
updates the memory, at its facility only, to exactly the transmitted
(power_mw, co2_kg) pair. -/
theorem C3_change_detection (last_vals : LastVals) (r : PubRow) :
    ((stepRow last_vals r).2 = none ↔
      last_vals r.facility_code = some (r.power_mw.getD 0, r.co2_kg.getD 0)) ∧
    ((stepRow last_vals r).2 = none → (stepRow last_vals r).1 = last_vals) ∧
    (last_vals r.facility_code ≠ some (r.power_mw.getD 0, r.co2_kg.getD 0) →
      (stepRow last_vals r).2 = some (mkMsg r) ∧
      (stepRow last_vals r).1 r.facility_code = some ((mkMsg r).power_mw, (mkMsg r).co2_kg) ∧
      (mkMsg r).power_mw = r.power_mw.getD 0 ∧
      (mkMsg r).co2_kg = r.co2_kg.getD 0 ∧
      ∀ g, g ≠ r.facility_code → (stepRow last_vals r).1 g = last_vals g) := by
  by_cases h : last_vals r.facility_code = some (r.power_mw.getD 0, r.co2_kg.getD 0) <;>
    simp [stepRow, lastValsSet, mkMsg, h]
  intro g hg
  simp [hg]

/-- Witness for C3: a first-seen row is transmitted. -/
theorem C3_change_detection_witness :
    (stepRow lastValsEmpty c3row).2 = some (mkMsg c3row) :=
  ((C3_change_detection lastValsEmpty c3row).2.2 (by simp [lastValsEmpty])).1

/-- Claim C10: a missing (NaN) power_mw or co2_kg is coerced to 0.0 before
both change detection and transmission: every transmitted message carries
exactly the coerced numeric pair (in particular never a missing value),
and a row with both values absent is treated as unchanged with respect to
a previously transmitted pair of exactly (0.0, 0.0) for that facility
(skipped, no memory update). -/
theorem C10_nan_coerced_to_zero (last_vals : LastVals) (r : PubRow) :
    (∀ msg, (stepRow last_vals r).2 = some msg →
      msg.power_mw = r.power_mw.getD 0 ∧ msg.co2_kg = r.co2_kg.getD 0) ∧
    (r.power_mw = none → r.co2_kg = none →
      last_vals r.facility_code = some (0, 0) →
      (stepRow last_vals r).2 = none ∧ (stepRow last_vals r).1 = last_vals) := by
  constructor
  · intro msg hmsg
    by_cases h : last_vals r.facility_code = some (r.power_mw.getD 0, r.co2_kg.getD 0) <;>
      simp [stepRow, h] at hmsg
    simp [← hmsg, mkMsg]
  · intro hp hc hmem
    have h : last_vals r.facility_code = some (r.power_mw.getD 0, r.co2_kg.getD 0) := by
      simp [hp, hc, hmem]
    simp [stepRow, h]

/-- Witness for C10: a row with NaN power and NaN co2 is skipped when the
memory for its facility holds exactly (0, 0). -/
theorem C10_nan_coerced_to_zero_witness :
    (stepRow (lastValsSet lastValsEmpty "F2" (0, 0)) c10row).2 = none :=
  ((C10_nan_coerced_to_zero (lastValsSet lastValsEmpty "F2" (0, 0)) c10row).2
    rfl rfl (by simp [lastValsSet, c10row])).1

theorem rowLtB_true_le {a b : PubRow} (h : rowLtB a b = true) : rowLe a b := by
  unfold rowLtB at h
  simp only [Bool.or_eq_true, Bool.and_eq_true, decide_eq_true_eq] at h
  rcases h with h | ⟨h1, h2⟩
  · exact Or.inl h
  · exact Or.inr ⟨h1, le_of_lt h2⟩

theorem rowLtB_false_le {a b : PubRow} (h : rowLtB b a = false) : rowLe a b := by
  unfold rowLtB at h
  simp only [Bool.or_eq_false_iff, Bool.and_eq_false_iff, decide_eq_false_iff_not] at h
  rcases h with ⟨h1, h2⟩
  rcases Nat.lt_trichotomy a.ts b.ts with hlt | heq | hgt
  · exact Or.inl hlt
  · refine Or.inr ⟨heq, ?_⟩
    rcases h2 with h2 | h2
    · exact absurd heq.symm h2
    · exact le_of_not_lt h2
  · exact absurd hgt h1

theorem rowLe_trans {a b c : PubRow} (hab : rowLe a b) (hbc : rowLe b c) : rowLe a c := by
  rcases hab with h1 | ⟨e1, l1⟩ <;> rcases hbc with h2 | ⟨e2, l2⟩
  · exact Or.inl (lt_trans h1 h2)
  · exact Or.inl (e2 ▸ h1)
  · exact Or.inl (e1 ▸ h2)
  · exact Or.inr ⟨e1.trans e2, le_trans l1 l2⟩

theorem mem_insLex {z x : PubRow} {l : List PubRow} :
    z ∈ insLex x l ↔ z = x ∨ z ∈ l := by
  induction l with
  | nil => simp [insLex]
  | cons y ys ih =>
    by_cases h : rowLtB y x = true
    · simp [insLex, h, ih]
      try tauto
    · simp [insLex, h]
      try tauto

theorem sorted_insLex {x : PubRow} {l : List PubRow}
    (h : List.Pairwise rowLe l) : List.Pairwise rowLe (insLex x l) := by
  induction l with
  | nil => simp [insLex]
  | cons y ys ih =>
    rcases List.pairwise_cons.mp h with ⟨hy, hys⟩
    by_cases hc : rowLtB y x = true
    · simp only [insLex, hc, if_pos]
      refine List.pairwise_cons.mpr ⟨?_, ih hys⟩
      intro z hz
      rcases mem_insLex.mp hz with rfl | hz
      · exact rowLtB_true_le hc
      · exact hy z hz
    · simp only [insLex, hc, if_neg, Bool.not_eq_true]
      have hxy : rowLe x y := rowLtB_false_le (by simpa using hc)
      refine List.pairwise_cons.mpr ⟨?_, h⟩
      intro z hz
      rcases List.mem_cons.mp hz with rfl | hz
      · exact hxy
      · exact rowLe_trans hxy (hy z hz)

theorem sortLex_sorted (l : List PubRow) : List.Pairwise rowLe (sortLex l) := by
  induction l with
  | nil => simp [sortLex]
  | cons x xs ih => exact sorted_insLex ih

theorem processRound_mem {rows : List PubRow} :
    ∀ {last_vals : LastVals} {msg : WireMsg},
      msg ∈ (processRound last_vals rows).2 → ∃ r ∈ rows, msg = mkMsg r := by
  induction rows with
  | nil => intro lv msg h; simp [processRound] at h
  | cons r rest ih =>
    intro lv msg h
    by_cases hc : lv r.facility_code = some (r.power_mw.getD 0, r.co2_kg.getD 0)
    · simp only [processRound] at h
      rw [stepRow, if_pos hc] at h
      simp only [Option.toList_none, List.nil_append] at h
      rcases ih h with ⟨s, hs, rfl⟩
      exact ⟨s, List.mem_cons_of_mem r hs, rfl⟩
    · simp only [processRound] at h
      rw [stepRow, if_neg hc] at h
      simp only [Option.toList_some, List.singleton_append, List.mem_cons] at h
      rcases h with rfl | h
      · exact ⟨r, List.mem_cons_self r rest, rfl⟩
      · rcases ih h with ⟨s, hs, rfl⟩
        exact ⟨s, List.mem_cons_of_mem r hs, rfl⟩

theorem processRound_pairwise {rows : List PubRow} (h : List.Pairwise rowLe rows) :
    ∀ last_vals : LastVals, List.Pairwise msgLe (processRound last_vals rows).2 := by
  induction rows with
  | nil => intro lv; simp [processRound]
  | cons r rest ih =>
    intro lv
    rcases List.pairwise_cons.mp h with ⟨hr, hrest⟩
    by_cases hc : lv r.facility_code = some (r.power_mw.getD 0, r.co2_kg.getD 0)
    · simp only [processRound]
      rw [stepRow, if_pos hc]
      simp only [Option.toList_none, List.nil_append]
      exact ih hrest _
    · simp only [processRound]
      rw [stepRow, if_neg hc]
      simp only [Option.toList_some, List.singleton_append]
      refine List.pairwise_cons.mpr ⟨?_, ih hrest _⟩
      intro m hm
      rcases processRound_mem hm with ⟨s, hs, rfl⟩
      rcases hr s hs with hlt | ⟨heq, hle⟩
      · exact Or.inl hlt
      · exact Or.inr ⟨heq, hle⟩

/-- Claim C4: within every publisher round (the rows sorted by event time
then facility code, as `_load_csv` produces them), the sequence of
transmitted messages has non-decreasing event_time, and any two messages
with equal event_time appear in ascending (non-strict) facility_id
order. -/
theorem C4_round_message_order (last_vals : LastVals) (rows : List PubRow) :
    List.Pairwise msgLe (processRound last_vals (sortLex rows)).2 :=
  processRound_pairwise (sortLex_sorted rows) last_vals

/- ------------------------------------------------------------------ -/
/- Two-tier error policy of run() (claim C5)                           -/
/- ------------------------------------------------------------------ -/

theorem runRounds_skip_iff (loads : List LoadOutcome) :
    ∀ last_vals : LastVals,
      List.Forall₂ (fun l r => l = LoadOutcome.err ↔ r = RoundOutcome.skipped)
        loads (runRounds last_vals loads) := by
  induction loads with
  | nil => intro lv; simp [runRounds]
  | cons l rest ih =>
    intro lv
    cases l with
    | err => exact List.Forall₂.cons (by simp) (ih lv)
    | ok rows => exact List.Forall₂.cons (by simp) (ih _)

/-- Counterexample for C5: the CSV file exists but its very first in-loop
load fails (e.g. required columns missing).  The publisher does not abort:
the first round is merely skipped and the loop continues, transmitting in
the second round once the load succeeds — the load call sits inside the
loop's try/except, so no pre-loop abort happens for a schema error. -/
theorem C5_counterexample :
    runPublisher true [LoadOutcome.err, LoadOutcome.ok [c5row]] =
      Except.ok [RoundOutcome.skipped, RoundOutcome.sent [mkMsg c5row]] := by
  simp [runPublisher, runRounds, processRound, sortLex, insLex, stepRow, lastValsEmpty]

/-- Claim C5 (amended): the only fatal startup error is a missing CSV path
(non-zero exit before the loop); when the file exists, a load failure at
ANY round — including the very first load — is logged and only that round
is skipped, the loop continuing (a round is skipped iff its load fails). -/
theorem C5_two_tier_error_policy (loads : List LoadOutcome) :
    runPublisher false loads = Except.error 1 ∧
    ∃ rounds, runPublisher true loads = Except.ok rounds ∧
      rounds.length = loads.length ∧
      List.Forall₂ (fun l r => l = LoadOutcome.err ↔ r = RoundOutcome.skipped)
        loads rounds := by
  refine ⟨by simp [runPublisher], runRounds lastValsEmpty loads, by simp [runPublisher], ?_, ?_⟩
  · exact (runRounds_skip_iff loads lastValsEmpty).length_eq.symm
  · exact runRounds_skip_iff loads lastValsEmpty

/- ------------------------------------------------------------------ -/
/- Theorems for claims C6 and C7                                       -/
/- ------------------------------------------------------------------ -/

theorem show_upto_step_some_ge (m M : Nat) (p : Bool) (c : Nat) :
    c ≤ show_upto_step m M p (some c) := by
  simp only [show_upto_step, Option.getD_some]
  split_ifs with h
  · have := h.2
    omega
  · exact le_refl c

theorem show_upto_step_some_le (m M : Nat) (p : Bool) (c : Nat) (hc : c ≤ M) :
    show_upto_step m M p (some c) ≤ M := by
  simp only [show_upto_step, Option.getD_some]
  split_ifs with h
  · omega
  · exact hc

theorem show_upto_step_none_le (m M : Nat) (p : Bool) (h : m ≤ M) :
    show_upto_step m M p none ≤ M := by
  simp only [show_upto_step, Option.getD_none]
  split_ifs with hp
  · omega
  · exact h

theorem cursor_trace_props (m M : Nat) (plays : List Bool) :
    ∀ c : Nat, c ≤ M →
      List.Chain' (· ≤ ·) (c :: cursor_trace m M plays (some c)) ∧
      ∀ n ∈ cursor_trace m M plays (some c), n ≤ M := by
  induction plays with
  | nil => intro c hc; exact ⟨List.chain'_singleton c, by simp [cursor_trace]⟩
  | cons p ps ih =>
    intro c hc
    have h1 : c ≤ show_upto_step m M p (some c) := show_upto_step_some_ge m M p c
    have h2 : show_upto_step m M p (some c) ≤ M := show_upto_step_some_le m M p c hc
    rcases ih (show_upto_step m M p (some c)) h2 with ⟨hch, hmem⟩
    refine ⟨?_, ?_⟩
    · simp only [cursor_trace]
      exact List.Chain'.cons h1 hch
    · intro n hn
      simp only [cursor_trace, List.mem_cons] at hn
      rcases hn with rfl | hn
      · exact h2
      · exact hmem n hn

/-- Claim C6: over a fixed loaded dataset (with valid minimum `min_ts` and
maximum `max_ts` of event times), an unset cursor is initialised to the
dataset minimum; a playing tick from a cursor within range sets it to
min(max_ts, cursor + step) for the fixed step; a tick at the maximum is a
no-op; and along any sequence of ticks the cursor never decreases and
never exceeds the maximum. -/
theorem C6_cursor_monotone_bounded (min_ts max_ts : Nat) (h : min_ts ≤ max_ts)
    (plays : List Bool) :
    show_upto_step min_ts max_ts false none = min_ts ∧
    (∀ p, show_upto_step min_ts max_ts p (some max_ts) = max_ts) ∧
    (∀ c, c ≤ max_ts →
      show_upto_step min_ts max_ts true (some c) = min max_ts (c + PLAYBACK_DELTA)) ∧
    List.Chain' (· ≤ ·) (cursor_trace min_ts max_ts plays none) ∧
    (∀ n ∈ cursor_trace min_ts max_ts plays none, n ≤ max_ts) := by
  refine ⟨by simp [show_upto_step], ?_, ?_, ?_, ?_⟩
  · intro p
    simp [show_upto_step]
  · intro c hc
    simp only [show_upto_step, Option.getD_some, true_and]
    split_ifs with hlt
    · rfl
    · have : c = max_ts := by omega
      simp [this, PLAYBACK_DELTA]
  · cases plays with
    | nil => simp [cursor_trace]
    | cons p ps =>
      simp only [cursor_trace]
      have hle : show_upto_step min_ts max_ts p none ≤ max_ts :=
        show_upto_step_none_le min_ts max_ts p h
      exact (cursor_trace_props min_ts max_ts ps _ hle).1
  · cases plays with
    | nil => simp [cursor_trace]
    | cons p ps =>
      intro n hn
      simp only [cursor_trace, List.mem_cons] at hn
      have hle : show_upto_step min_ts max_ts p none ≤ max_ts :=
        show_upto_step_none_le min_ts max_ts p h
      rcases hn with rfl | hn
      · exact hle
      · exact (cursor_trace_props min_ts max_ts ps _ hle).2 n hn

/-- Witness for C6: a concrete dataset range and tick sequence. -/
theorem C6_cursor_monotone_bounded_witness :
    (0 : Nat) ≤ 600 ∧ List.Chain' (· ≤ ·) (cursor_trace 0 600 [true, true, false] none) :=
  ⟨by decide, (C6_cursor_monotone_bounded 0 600 (by decide) [true, true, false]).2.2.2.1⟩

/-- Counterexample for C7: mid-playback (cursor at 600 over a dataset with
minimum event time 0), the user hits manual reload (data_mtime := -1.0,
rerun); the next run reloads the data but the cursor stays at 600 — it is
not reset to the dataset minimum, because lines 370-371 only initialise
the cursor when it is None/NaT and nothing in the manual-refresh handler
touches show_upto_ts. -/
theorem C7_counterexample :
    (runOnce c7file false false (btn_manual_refresh c7state)).show_upto_ts = some 600 ∧
    minTs c7rows = some 0 ∧ (600 : Nat) ≠ 0 := by
  refine ⟨?_, by decide, by decide⟩
  rfl

/-- Claim C7 (amended): the manual-reload action sets the stored data
token to -1 and leaves the dataset and the cursor untouched; on the next
non-paused run the data is therefore reloaded from the file (any real
mtime differs from -1); but no run ever resets a set cursor — a run maps
a cursor `some c` to some `some n` with `c ≤ n` (the cursor is
initialised to the dataset minimum only when it is None/NaT), and pausing
merely skips the reload, never touching the cursor either. -/
theorem C7_manual_reload_no_reset (s : AppSt) (file : FileSt) (pause play : Bool) :
    (btn_manual_refresh s).show_upto_ts = s.show_upto_ts ∧
    (btn_manual_refresh s).df_all = s.df_all ∧
    (btn_manual_refresh s).data_mtime = -1 ∧
    (file.mtime ≠ -1 → (runOnce file false play (btn_manual_refresh s)).df_all = file.rows) ∧
    (∀ c, s.show_upto_ts = some c →
      ∃ n, (runOnce file pause play s).show_upto_ts = some n ∧ c ≤ n) := by
  refine ⟨rfl, rfl, rfl, ?_, ?_⟩
  · intro hm
    simp only [runOnce, btn_manual_refresh, ne_eq, not_false_iff, true_and, if_pos hm]
    split
    · rfl
    · split
      · rfl
      · rfl
  · intro c hc
    simp only [runOnce]
    split
    · split
      · exact ⟨c, hc, le_refl c⟩
      · split
        · refine ⟨_, rfl, ?_⟩
          simp only [hc]
          exact show_upto_step_some_ge _ _ _ _
        · exact ⟨c, hc, le_refl c⟩
    · split
      · exact ⟨c, hc, le_refl c⟩
      · split
        · refine ⟨_, rfl, ?_⟩
          simp only [hc]
          exact show_upto_step_some_ge _ _ _ _
        · exact ⟨c, hc, le_refl c⟩

/-- Witness for C7: the amended theorem applied at a concrete state. -/
theorem C7_manual_reload_no_reset_witness :
    (runOnce c7file false false (btn_manual_refresh c7state)).df_all = c7file.rows ∧
    ∃ n, (runOnce c7file false false c7state).show_upto_ts = some n ∧ 600 ≤ n :=
  ⟨(C7_manual_reload_no_reset c7state c7file false false).2.2.2.1 (by decide),
   (C7_manual_reload_no_reset c7state c7file false false).2.2.2.2 600 rfl⟩

/- ------------------------------------------------------------------ -/
/- Theorems for claims C8 and C9                                       -/
/- ------------------------------------------------------------------ -/

/-- Claim C8: for every source row with admissible coordinates and
present power/CO2 values, the wire message the publisher produces, once
appended to the JSONL log by the subscriber and re-harmonized by the
consumer, yields a record with the same facility_id, latitude, longitude,
power_mw and CO2 mass (kg) as the source row, and an event time equal to
the original to the second. -/
theorem C8_round_trip (r : PubRow) (p c : ℚ)
    (hv : _valid_lat_lon r.lat r.lon = true)
    (hp : r.power_mw = some p) (hc : r.co2_kg = some c) :
    ∃ h, _harmonize_row (sub_on_message (msgToRaw (mkMsg r))) = some h ∧
      h.facility_id = some r.facility_code ∧
      h.latitude = r.lat ∧ h.longitude = r.lon ∧
      h.power_mw = some p ∧ h.co2_kg = some c ∧
      h.ts = some r.ts := by
  refine ⟨{ facility_id := some r.facility_code
            name := some (r.facility_name.getD "Unknown")
            state := some (r.region.getD "")
            fuel_tech := some (r.fuel_tech.getD "")
            latitude := r.lat
            longitude := r.lon
            power_mw := some (r.power_mw.getD 0)
            emissions_tonnes := some (r.co2_kg.getD 0 / 1000)
            co2_kg := some (r.co2_kg.getD 0)
            ts := some r.ts }, ?_, rfl, rfl, rfl, ?_, ?_, rfl⟩
  · simp [_harmonize_row, sub_on_message, msgToRaw, mkMsg, hv]
  · simp [hp]
  · simp [hc]

/-- Witness for C8: the round trip at a concrete admissible row. -/
theorem C8_round_trip_witness :
    _valid_lat_lon c8row.lat c8row.lon = true ∧
    ∃ h, _harmonize_row (sub_on_message (msgToRaw (mkMsg c8row))) = some h ∧
      h.facility_id = some c8row.facility_code ∧
      h.latitude = c8row.lat ∧ h.longitude = c8row.lon ∧
      h.power_mw = some 12 ∧ h.co2_kg = some 800 ∧
      h.ts = some c8row.ts :=
  ⟨by norm_num [c8row, _valid_lat_lon],
   C8_round_trip c8row 12 800 (by norm_num [c8row, _valid_lat_lon]) rfl rfl⟩

/-- Counterexample for C9: a record carrying both a CO2 mass
(co2_kg = 1000, so mass/1000 = 1) and an upstream emissions_tonnes value
(99) is harmonized with emissions_tonnes = 99: the guard
`if "emissions_tonnes" not in df.columns` keeps the upstream value and
does not recompute from the mass, contradicting the claim that the tonnes
value is recomputed whenever the mass is present. -/
theorem C9_counterexample :
    ((_harmonize_row c9raw).map (fun h => h.emissions_tonnes)) = some (some 99) ∧
    (99 : ℚ) ≠ 1000 / 1000 := by
  constructor
  · norm_num [_harmonize_row, c9raw, _valid_lat_lon]
  · norm_num

/-- Claim C9 (amended): the harmonizer derives emissions_tonnes as
co2_kg / 1000 only when no emissions_tonnes value is already present
(falling back to a generic emissions field over 1000, else missing); an
upstream emissions_tonnes value, when present, is kept unchanged rather
than recomputed from the mass. -/
theorem C9_emissions_tonnes (raw : RawRow) (h : HRow)
    (hh : _harmonize_row raw = some h) :
    (∀ mass, raw.emissions_tonnes = none → raw.co2_kg = some mass →
      h.emissions_tonnes = some (mass / 1000)) ∧
    (∀ e, raw.emissions_tonnes = some e → h.emissions_tonnes = some e) := by
  unfold _harmonize_row at hh
  constructor
  · intro mass hup hm
    rcases hla : raw.latitude <|> raw.lat with _ | la <;>
      rcases hlo : raw.longitude <|> raw.lon with _ | lo <;>
        rw [hla, hlo] at hh <;> try dsimp only at hh
    · exact Option.noConfusion hh
    · exact Option.noConfusion hh
    · exact Option.noConfusion hh
    · by_cases hv : _valid_lat_lon la lo = true
      · rw [if_pos hv, hup, hm] at hh
        cases hh
        rfl
      · rw [if_neg hv] at hh
        exact Option.noConfusion hh
  · intro e hup
    rcases hla : raw.latitude <|> raw.lat with _ | la <;>
      rcases hlo : raw.longitude <|> raw.lon with _ | lo <;>
        rw [hla, hlo] at hh <;> try dsimp only at hh
    · exact Option.noConfusion hh
    · exact Option.noConfusion hh
    · exact Option.noConfusion hh
    · by_cases hv : _valid_lat_lon la lo = true
      · rw [if_pos hv, hup] at hh
        cases hh
        rfl
      · rw [if_neg hv] at hh
        exact Option.noConfusion hh

/-- Witness for C9: with no upstream tonnes value, co2_kg = 2000 is
harmonized to emissions_tonnes = 2. -/
theorem C9_emissions_tonnes_witness :
    ∃ h, _harmonize_row c9rawB = some h ∧ h.emissions_tonnes = some (2000 / 1000) := by
  have hv : _harmonize_row c9rawB =
      some { facility_id := some "F6"
             name := none
             state := none
             fuel_tech := none
             latitude := 20
             longitude := 60
             power_mw := none
             emissions_tonnes := some (2000 / 1000)
             co2_kg := some 2000
             ts := some 500 } := by
    norm_num [_harmonize_row, c9rawB, _valid_lat_lon]
  exact ⟨_, hv, (C9_emissions_tonnes c9rawB _ hv).1 2000 rfl rfl⟩

theorem getLast?_cons_ne {a : HRow} {l : List HRow} (h : l ≠ []) :
    (a :: l).getLast? = l.getLast? := by
  cases l with
  | nil => exact absurd rfl h
  | cons b m => simp [List.getLast?_cons_cons]

theorem tsLtB_irrefl (a : Option Nat) : tsLtB a a = false := by
  cases a <;> simp [tsLtB]

theorem filter_ne_nil_of_any {p : HRow → Bool} {l : List HRow} (h : l.any p = true) :
    l.filter p ≠ [] := by
  rw [List.any_eq_true] at h
  rcases h with ⟨s, hs, hps⟩
  intro he
  have hmem : s ∈ l.filter p := List.mem_filter.mpr ⟨hs, hps⟩
  rw [he] at hmem
  simp at hmem

theorem filter_eq_nil_of_any_false {p : HRow → Bool} {l : List HRow} (h : l.any p = false) :
    l.filter p = [] := by
  rw [List.filter_eq_nil_iff]
  intro a ha
  rw [List.any_eq_false] at h
  simp [h a ha]

theorem tailOne_mem {l : List HRow} :
    ∀ {z : HRow}, z ∈ tailOneByFid l → z ∈ l ∧ z.facility_id ≠ none := by
  induction l with
  | nil => intro z h; simp [tailOneByFid] at h
  | cons r rest ih =>
    intro z h
    rw [tailOneByFid] at h
    cases hf : r.facility_id with
    | none =>
      rw [hf] at h
      have h2 : z ∈ tailOneByFid rest := h
      rcases ih h2 with ⟨hz, hne⟩
      exact ⟨List.mem_cons_of_mem r hz, hne⟩
    | some g =>
      rw [hf] at h
      have h2 : z ∈ (if rest.any (fun s => decide (s.facility_id = some g)) then
          tailOneByFid rest else r :: tailOneByFid rest) := h
      by_cases ha : rest.any (fun s => decide (s.facility_id = some g)) = true
      · rw [if_pos ha] at h2
        rcases ih h2 with ⟨hz, hne⟩
        exact ⟨List.mem_cons_of_mem r hz, hne⟩
      · rw [if_neg ha] at h2
        rcases List.mem_cons.mp h2 with rfl | h3
        · exact ⟨List.mem_cons_self z rest, by simp [hf]⟩
        · rcases ih h3 with ⟨hz, hne⟩
          exact ⟨List.mem_cons_of_mem r hz, hne⟩

theorem tailOne_filter (l : List HRow) (f : String) :
    (tailOneByFid l).filter (fun s => decide (s.facility_id = some f)) =
      match (l.filter (fun s => decide (s.facility_id = some f))).getLast? with
      | none => []
      | some r => [r] := by
  induction l with
  | nil => rfl
  | cons r rest ih =>
    rw [tailOneByFid]
    cases hf : r.facility_id with
    | none =>
      have hdrop : (r :: rest).filter (fun s => decide (s.facility_id = some f)) =
          rest.filter (fun s => decide (s.facility_id = some f)) := by
        simp [List.filter_cons, hf]
      rw [hdrop]
      exact ih
    | some g =>
      dsimp only
      by_cases ha : rest.any (fun s => decide (s.facility_id = some g)) = true
      · rw [if_pos ha]
        by_cases hgf : g = f
        · subst hgf
          have hkeep : (r :: rest).filter (fun s => decide (s.facility_id = some g)) =
              r :: rest.filter (fun s => decide (s.facility_id = some g)) := by
            simp [List.filter_cons, hf]
          rw [hkeep, getLast?_cons_ne (filter_ne_nil_of_any ha)]
          exact ih
        · have hdrop : (r :: rest).filter (fun s => decide (s.facility_id = some f)) =
              rest.filter (fun s => decide (s.facility_id = some f)) := by
            simp [List.filter_cons, hf, hgf]
          rw [hdrop]
          exact ih
      · rw [if_neg ha]
        by_cases hgf : g = f
        · subst hgf
          have hrest : rest.filter (fun s => decide (s.facility_id = some g)) = [] :=
            filter_eq_nil_of_any_false (by simpa using ha)
          have hkeep : (r :: rest).filter (fun s => decide (s.facility_id = some g)) =
              r :: rest.filter (fun s => decide (s.facility_id = some g)) := by
            simp [List.filter_cons, hf]
          have hlhs : (r :: tailOneByFid rest).filter
              (fun s => decide (s.facility_id = some g)) =
              r :: (tailOneByFid rest).filter (fun s => decide (s.facility_id = some g)) := by
            simp [List.filter_cons, hf]
          rw [hlhs, ih, hkeep, hrest]
          simp
        · have hlhs : (r :: tailOneByFid rest).filter
              (fun s => decide (s.facility_id = some f)) =
              (tailOneByFid rest).filter (fun s => decide (s.facility_id = some f)) := by
            simp [List.filter_cons, hf, hgf]
          have hdrop : (r :: rest).filter (fun s => decide (s.facility_id = some f)) =
              rest.filter (fun s => decide (s.facility_id = some f)) := by
            simp [List.filter_cons, hf, hgf]
          rw [hlhs, hdrop]
          exact ih

theorem getLast?_cons_of_ne_nil {α : Type} {a : α} {l : List α} (h : l ≠ []) :
    (a :: l).getLast? = l.getLast? := by
  cases l with
  | nil => exact absurd rfl h
  | cons b m => simp [List.getLast?_cons_cons]

theorem storeLookup_map_replace {k : String} {v : LiveRec} :
    ∀ {st : LatestByFac}, st.any (fun p => decide (p.1 = k)) = true →
      storeLookup (st.map (fun p => if p.1 = k then (k, v) else p)) k = some v := by
  intro st
  induction st with
  | nil => intro h; simp at h
  | cons p rest ih =>
    intro h
    by_cases hp : p.1 = k
    · simp [List.map_cons, hp, storeLookup]
    · have h2 : rest.any (fun q => decide (q.1 = k)) = true := by
        simp [List.any_cons, hp] at h
        simpa using h
      simp only [List.map_cons, if_neg hp, storeLookup]
      exact ih h2

theorem storeLookup_append_single {k : String} {v : LiveRec} :
    ∀ {st : LatestByFac}, st.any (fun p => decide (p.1 = k)) = false →
      storeLookup (st ++ [(k, v)]) k = some v := by
  intro st
  induction st with
  | nil => intro h; simp [storeLookup]
  | cons p rest ih =>
    intro h
    simp only [List.any_cons, Bool.or_eq_false_iff, decide_eq_false_iff_not] at h
    rcases h with ⟨hp, hrest⟩
    simp only [List.cons_append, storeLookup, if_neg hp]
    exact ih (by simpa using hrest)

theorem storeLookup_dictInsert_self (st : LatestByFac) (k : String) (v : LiveRec) :
    storeLookup (dictInsert st k v) k = some v := by
  rw [dictInsert]
  by_cases ha : st.any (fun p => decide (p.1 = k)) = true
  · rw [if_pos ha]
    exact storeLookup_map_replace ha
  · rw [if_neg ha]
    have ha2 : st.any (fun p => decide (p.1 = k)) = false := by
      cases hany : st.any (fun p => decide (p.1 = k))
      · rfl
      · exact absurd hany ha
    exact storeLookup_append_single ha2

theorem storeLookup_map_replace_ne {k g : String} {v : LiveRec} (hne : g ≠ k) :
    ∀ {st : LatestByFac},
      storeLookup (st.map (fun p => if p.1 = k then (k, v) else p)) g =
        storeLookup st g := by
  intro st
  induction st with
  | nil => rfl
  | cons p rest ih =>
    by_cases hp : p.1 = k
    · have hkg : ¬(k = g) := fun h => hne h.symm
      have hpg : ¬(p.1 = g) := by rw [hp]; exact hkg
      simp only [List.map_cons, if_pos hp, storeLookup, if_neg hkg, if_neg hpg]
      exact ih
    · simp only [List.map_cons, if_neg hp, storeLookup]
      by_cases hpg : p.1 = g
      · simp [hpg]
      · rw [if_neg hpg, if_neg hpg]
        exact ih

theorem storeLookup_append_single_ne {k g : String} {v : LiveRec} (hne : g ≠ k) :
    ∀ {st : LatestByFac}, storeLookup (st ++ [(k, v)]) g = storeLookup st g := by
  intro st
  induction st with
  | nil =>
    have hkg : ¬(k = g) := fun h => hne h.symm
    simp [storeLookup, hkg]
  | cons p rest ih =>
    by_cases hpg : p.1 = g
    · simp [List.cons_append, storeLookup, hpg]
    · simp only [List.cons_append, storeLookup, if_neg hpg]
      exact ih

theorem storeLookup_dictInsert_ne {g k : String} (hne : g ≠ k)
    (st : LatestByFac) (v : LiveRec) :
    storeLookup (dictInsert st k v) g = storeLookup st g := by
  rw [dictInsert]
  by_cases ha : st.any (fun p => decide (p.1 = k)) = true
  · rw [if_pos ha]
    exact storeLookup_map_replace_ne hne
  · rw [if_neg ha]
    exact storeLookup_append_single_ne hne

theorem storeKeys_dictInsert_nodup {st : LatestByFac} (h : (storeKeys st).Nodup)
    (k : String) (v : LiveRec) : (storeKeys (dictInsert st k v)).Nodup := by
  rw [dictInsert]
  by_cases ha : st.any (fun p => decide (p.1 = k)) = true
  · rw [if_pos ha]
    have hkeys : storeKeys (st.map (fun p => if p.1 = k then (k, v) else p)) =
        storeKeys st := by
      rw [storeKeys, storeKeys, List.map_map]
      apply List.map_congr_left
      intro p hp
      by_cases hpk : p.1 = k
      · simp [hpk]
      · simp [hpk]
    rw [hkeys]
    exact h
  · rw [if_neg ha]
    have hnotin : k ∉ storeKeys st := by
      intro hk
      rcases List.mem_map.mp hk with ⟨p, hp, hpk⟩
      have : st.any (fun p => decide (p.1 = k)) = true :=
        List.any_eq_true.mpr ⟨p, hp, by simp [hpk]⟩
      exact ha this
    rw [storeKeys, List.map_append]
    simp only [List.map_cons, List.map_nil]
    rw [List.nodup_append]
    refine ⟨h, List.nodup_singleton k, ?_⟩
    intro a hamem hamem2
    simp at hamem2
    subst hamem2
    exact hnotin hamem

theorem mqttIngest_lookup (msgs : List LiveMsg) :
    ∀ (st : LatestByFac) (f : String),
      storeLookup (mqttIngest st msgs) f =
        match (liveRecsFor f msgs).getLast? with
        | some r => some r
        | none => storeLookup st f := by
  induction msgs with
  | nil => intro st f; simp [mqttIngest, liveRecsFor]
  | cons j rest ih =>
    intro st f
    rw [mqttIngest, ih]
    cases hk : mqttKey j with
    | none =>
      have hrecs : liveRecsFor f (j :: rest) = liveRecsFor f rest := by
        simp [liveRecsFor, List.filterMap_cons, hk]
      have hmsg : _mqtt_on_message st j = st := by rw [_mqtt_on_message, hk]
      rw [hrecs, hmsg]
    | some fc =>
      have hmsg : _mqtt_on_message st j = dictInsert st fc (mkLiveRec j fc) := by
        rw [_mqtt_on_message, hk]
      rw [hmsg]
      by_cases hf : fc = f
      · subst hf
        have hrecs : liveRecsFor fc (j :: rest) =
            mkLiveRec j fc :: liveRecsFor fc rest := by
          simp [liveRecsFor, List.filterMap_cons, hk]
        rw [hrecs]
        cases hrest : (liveRecsFor fc rest).getLast? with
        | none =>
          have hnil : liveRecsFor fc rest = [] :=
            List.getLast?_eq_none_iff.mp hrest
          rw [hnil]
          simp [storeLookup_dictInsert_self]
        | some r =>
          have hne : liveRecsFor fc rest ≠ [] := by
            intro he
            rw [he] at hrest
            simp at hrest
          rw [getLast?_cons_of_ne_nil hne, hrest]
      · have hrecs : liveRecsFor f (j :: rest) = liveRecsFor f rest := by
          simp [liveRecsFor, List.filterMap_cons, hk, hf]
        rw [hrecs, storeLookup_dictInsert_ne (fun h => hf h.symm) st (mkLiveRec j fc)]

theorem mqttIngest_keys_nodup (msgs : List LiveMsg) :
    ∀ st : LatestByFac, (storeKeys st).Nodup →
      (storeKeys (mqttIngest st msgs)).Nodup := by
  induction msgs with
  | nil => intro st h; exact h
  | cons j rest ih =>
    intro st h
    rw [mqttIngest]
    apply ih
    rw [_mqtt_on_message]
    cases hk : mqttKey j with
    | none => exact h
    | some fc => exact storeKeys_dictInsert_nodup h fc (mkLiveRec j fc)

/-- Counterexample for C1: facility A first reports event_time 10, then an
out-of-order message with event_time 5 arrives; the store ends up holding
the event_time-5 record although a record with the strictly greater
event_time 10 was already stored — `_mqtt_on_message` assigns
`latest_by_fac[fc] = rec` unconditionally, with no event-time
comparison. -/
theorem C1_counterexample :
    (storeLookup (mqttIngest [] [c1msgA, c1msgB]) "A").map (fun r => r.timestamp) =
      some (some 5) ∧ (5 : Nat) < 10 := by
  constructor
  · rfl
  · decide

/-- Claim C1 (amended): for every sequence of ingested messages, the live
Latest-State Store holds at most one record per facility (its keys are
pairwise distinct), and the stored record for a facility is always the
one built from the MOST RECENTLY RECEIVED message carrying that facility
key: an incoming record always replaces the stored one, regardless of how
its event_time compares (pure last-write-wins on arrival order). -/
theorem C1_live_store_last_write_wins (msgs : List LiveMsg) :
    (storeKeys (mqttIngest [] msgs)).Nodup ∧
    ∀ f : String, storeLookup (mqttIngest [] msgs) f = (liveRecsFor f msgs).getLast? := by
  constructor
  · exact mqttIngest_keys_nodup msgs [] (by simp [storeKeys])
  · intro f
    rw [mqttIngest_lookup msgs [] f]
    cases h : (liveRecsFor f msgs).getLast? with
    | none => rfl
    | some r => rfl

theorem getLast?_mem_list {α : Type} {l : List α} :
    ∀ {a : α}, l.getLast? = some a → a ∈ l := by
  induction l with
  | nil => intro a h; simp at h
  | cons x xs ih =>
    intro a h
    by_cases hxe : xs = []
    · subst hxe
      simp at h
      simp [h]
    · rw [getLast?_cons_of_ne_nil hxe] at h
      exact List.mem_cons_of_mem x (ih h)

theorem sorted_getLast?_ub {l : List HRow} :
    ∀ {m : HRow}, SortedTs l → l.getLast? = some m →
      ∀ y ∈ l, tsLtB m.ts y.ts = false := by
  induction l with
  | nil => intro m _ h; simp at h
  | cons x xs ih =>
    intro m hs hl y hy
    rcases List.pairwise_cons.mp hs with ⟨hx, hxs⟩
    by_cases hxe : xs = []
    · subst hxe
      simp only [List.getLast?_singleton, Option.some.injEq] at hl
      subst hl
      have hyx : y = x := by simpa using hy
      subst hyx
      exact tsLtB_irrefl y.ts
    · rw [getLast?_cons_of_ne_nil hxe] at hl
      have hm : m ∈ xs := getLast?_mem_list hl
      rcases List.mem_cons.mp hy with rfl | hy2
      · exact hx m hm
      · exact ih hxs hl y hy2

/-- Counterexample for C2: the window holds two F1 rows with the same
event time, row A before row B in original row order.  The list [B, A]
is an admissible output of line 381's `sort_values("_ts")` (a
permutation of the window, non-decreasing on `_ts` — the call passes no
kind="stable", so pandas' default unstable quicksort may emit it), and
`tail(1)` over it selects row A, not the row B that the claim's
"last in original row order" tie-break demands. -/
theorem C2_counterexample :
    sortValuesTs (df_window c2rows 11) [c2rowB, c2rowA] ∧
    (df_latest c2rows 11 [c2rowB, c2rowA]).map (fun s => s.name) =
      [some "Plant One A"] ∧
    ((c2rows.filter (fun s =>
        decide (s.facility_id = some "F1" ∧ s.ts = some 10))).getLast?).map
      (fun s => s.name) = some (some "Plant One B") ∧
    some "Plant One A" ≠ (some "Plant One B" : Option String) := by
  refine ⟨⟨?_, by decide⟩, by decide, by decide, by decide⟩
  show List.Perm [c2rowA, c2rowB] [c2rowB, c2rowA]
  exact List.Perm.swap c2rowB c2rowA []

/-- Claim C2 (amended): line 381's `sort_values("_ts")` passes no
kind="stable", so the program only guarantees some `_ts`-sorted
permutation of the window.  For every file-mode dataset, every cursor,
and every output the unstable sort may produce, the windowed-latest set
holds only window rows (rows of the dataset with event_time at or before
the cursor, carrying a facility_id), and for each facility with at least
one record in the window it holds exactly one row: a window row of that
facility with the greatest event time, namely the one the sort output
places last among the facility's rows (take-last over the sorted frame);
among equal greatest-event_time ties the selection is therefore
determined by the unstable sort's tie order, not by original row
order. -/
theorem C2_windowed_latest (df_all : List HRow) (cursor : Nat) (ws : List HRow)
    (hws : sortValuesTs (df_window df_all cursor) ws) :
    (∀ s ∈ df_latest df_all cursor ws,
      s ∈ df_all ∧ winLeB s.ts cursor = true ∧ s.facility_id ≠ none) ∧
    (∀ f : String,
      (∃ r ∈ df_all, r.facility_id = some f ∧ winLeB r.ts cursor = true) →
      ∃ m, (df_latest df_all cursor ws).filter
          (fun s => decide (s.facility_id = some f)) = [m] ∧
        m ∈ df_all ∧ m.facility_id = some f ∧ winLeB m.ts cursor = true ∧
        (∀ s ∈ df_all, s.facility_id = some f → winLeB s.ts cursor = true →
          tsLtB m.ts s.ts = false) ∧
        (ws.filter (fun s => decide (s.facility_id = some f))).getLast? = some m) := by
  rcases hws with ⟨hperm, hsort⟩
  constructor
  · intro s hs
    rw [df_latest] at hs
    by_cases hw : (df_window df_all cursor).isEmpty = true
    · rw [if_pos hw] at hs
      rw [List.isEmpty_iff] at hw
      rw [hw] at hs
      simp at hs
    · rw [if_neg hw] at hs
      rcases tailOne_mem hs with ⟨hs2, hne⟩
      have hs3 : s ∈ df_window df_all cursor := hperm.mem_iff.mpr hs2
      rcases List.mem_filter.mp hs3 with ⟨hs4, hs5⟩
      exact ⟨hs4, hs5, hne⟩
  · intro f hex
    rcases hex with ⟨r, hr, hrf, hrw⟩
    have hrwin : r ∈ df_window df_all cursor := List.mem_filter.mpr ⟨hr, hrw⟩
    have hrws : r ∈ ws := hperm.mem_iff.mp hrwin
    have hrF : r ∈ ws.filter (fun s => decide (s.facility_id = some f)) :=
      List.mem_filter.mpr ⟨hrws, by simp [hrf]⟩
    have hFne : ws.filter (fun s => decide (s.facility_id = some f)) ≠ [] := by
      intro he
      rw [he] at hrF
      simp at hrF
    cases hm : (ws.filter (fun s => decide (s.facility_id = some f))).getLast? with
    | none => exact absurd (List.getLast?_eq_none_iff.mp hm) hFne
    | some m =>
      have hwne : (df_window df_all cursor).isEmpty ≠ true := by
        intro hwE
        rw [List.isEmpty_iff] at hwE
        rw [hwE] at hrwin
        simp at hrwin
      have hfilter : (df_latest df_all cursor ws).filter
          (fun s => decide (s.facility_id = some f)) = [m] := by
        rw [df_latest, if_neg hwne, tailOne_filter, hm]
      have hmF : m ∈ ws.filter (fun s => decide (s.facility_id = some f)) :=
        getLast?_mem_list hm
      rcases List.mem_filter.mp hmF with ⟨hmws, hmfid⟩
      have hmwin : m ∈ df_window df_all cursor := hperm.mem_iff.mpr hmws
      rcases List.mem_filter.mp hmwin with ⟨hmall, hmle⟩
      have hmf : m.facility_id = some f := by simpa using hmfid
      refine ⟨m, hfilter, hmall, hmf, hmle, ?_, rfl⟩
      intro s hsall hsf hsle
      have hsws : s ∈ ws := hperm.mem_iff.mp (List.mem_filter.mpr ⟨hsall, hsle⟩)
      have hsF : s ∈ ws.filter (fun t => decide (t.facility_id = some f)) :=
        List.mem_filter.mpr ⟨hsws, by simp [hsf]⟩
      exact sorted_getLast?_ub (List.Pairwise.filter _ hsort) hm s hsF

/-- Witness for C2: the amended theorem applied to a concrete dataset
with two equal-timestamp F1 rows and a concrete admissible sort
output (the window itself, which is already sorted). -/
theorem C2_windowed_latest_witness :
    sortValuesTs (df_window c2rows 11) [c2rowA, c2rowB] ∧
    (∃ r ∈ c2rows, r.facility_id = some "F1" ∧ winLeB r.ts 11 = true) ∧
    (∃ m, (df_latest c2rows 11 [c2rowA, c2rowB]).filter
        (fun s => decide (s.facility_id = some "F1")) = [m] ∧
      m ∈ c2rows ∧ m.facility_id = some "F1" ∧ winLeB m.ts 11 = true ∧
      (∀ s ∈ c2rows, s.facility_id = some "F1" → winLeB s.ts 11 = true →
        tsLtB m.ts s.ts = false) ∧
      (([c2rowA, c2rowB].filter
          (fun s => decide (s.facility_id = some "F1"))).getLast? = some m)) :=
  ⟨⟨by decide, by decide⟩, by decide,
   (C2_windowed_latest c2rows 11 [c2rowA, c2rowB] ⟨by decide, by decide⟩).2 "F1"
     (by decide)⟩
